import Mathlib

/-!
Verification of the Package Archive Engine of `archer-pm`
(`src/zip_manipulation.rs`), shallowly embedded in Lean 4.

The filesystem interaction of `compress_directory` is modelled by the
list of items that `walkdir::WalkDir::new(path)` yields, in walk order:
each item is either a walk error (an `Err` from the iterator) or a
directory entry carrying its displayed path, its `file_name()`, its
file type, and — for regular files — the outcome of opening it for read
together with its byte content.  Paths are modelled as their Unix
display strings; `walkdir` builds a child's path by joining the parent
path, `"/"`, and the child's name, which is what the prefix-stripping
model below relies on.  In-memory zip writing (`ZipWriter` over a
`Cursor<&mut Vec<u8>>`) is modelled as an infallible accumulation of
archive entries.
-/

/-- File type of a walked directory entry (`entry.file_type()`).
`other` covers entries that are neither symlink, directory nor regular
file (sockets, FIFOs, devices, ...). -/
inductive FileType where
  | symlink
  | dir
  | file
  | other
deriving DecidableEq, Repr

/-- One successfully yielded `walkdir` entry.  `path` is
`entry.path().display().to_string()`; `fileName` is
`entry.file_name()` (its last path component) as UTF-8; `openError`
is `some e` when `OpenOptions::new().read(true).open(path)` would fail
with an error displaying as `e`; `content` is the file's bytes. -/
structure WalkEntry where
  path : String
  fileName : String
  ftype : FileType
  openError : Option String := none
  content : List Nat := []
deriving DecidableEq, Repr

/-- One item of the `WalkDir` iterator: a directory entry or a walk
error (whose `to_string()` is carried). -/
inductive WalkItem where
  | ok (e : WalkEntry)
  | err (msg : String)
deriving DecidableEq, Repr

/-- Error kinds of `crate::error::APMErrorType` used by
`zip_manipulation.rs` (the error module itself is plain data: a kind
plus a message built by `into_apm_error`). -/
inductive APMErrorType where
  | WalkdirError
  | SymlinkFoundError
  | ZIPAddDirectoryError
  | FileOpenError
  | ZIPStartFileError
  | ZIPFileCopyError
  | ZIPFinishError
  | ZIPArchiveOpenError
  | ZIPArchiveFileFindError
  | ZIPFileReadError
deriving DecidableEq, Repr

/-- Structure `APMError`: an error kind together with a human-readable detail
message. -/
structure APMError where
  errorType : APMErrorType
  message : String
deriving DecidableEq, Repr

/-- Rust `APMErrorType::into_apm_error(msg)`. -/
def APMErrorType.into_apm_error (t : APMErrorType) (msg : String) : APMError :=
  ⟨t, msg⟩

/-- One entry of the produced zip archive: its stored name, whether it
was added with `add_directory` (directory entry) or `start_file`
(file entry), and — for file entries — the bytes copied in. -/
structure ArchiveEntry where
  storedName : String
  isDirectory : Bool
  content : List Nat := []
deriving DecidableEq, Repr

/-- Model of Rust `Path::strip_prefix(root)` followed by
`.display().to_string()`, on Unix display strings as produced by
`walkdir` (a child path is the parent path joined with `"/"` and the
child name).  Returns `none` when stripping fails (the `Err` case,
which `compress_directory` turns into `unwrap_or(name)`). -/
def stripPrefixPath (root name : String) : Option String :=
  if name = root then some ""
  else if List.isPrefixOf (root ++ "/").data name.data then
    some ⟨name.data.drop (root.data.length + 1)⟩
  else none

/-- Accumulated state of the zip writer plus the optional manifest
(`file_names`) during `compress_directory`'s walk loop. -/
structure ZipState where
  entries : List ArchiveEntry
  file_names : Option (List (String × String))
deriving DecidableEq, Repr

/-- The body of `compress_directory`'s `for` loop
(`src/zip_manipulation.rs:26-66`) for one `WalkDir` item, including
the inlined `add_file_to_archive` call (`src/zip_manipulation.rs:93-120`)
for regular files.  Walk errors become `WalkdirError`; the entry whose
displayed path equals `path` is skipped; the stored name is the full
path when `dont_strip_base_dir`, else the path with the `path` prefix
stripped (falling back to the full path when stripping fails);
symlinks abort with `SymlinkFoundError`; directories and readable
regular files are appended to the archive (and to the manifest when
tracked); a file whose open fails aborts with `FileOpenError` naming
the file; any other file type falls through all three branches and is
skipped. -/
def processItem (path : String) (dont_strip_base_dir : Bool)
    (st : ZipState) (item : WalkItem) : Except APMError ZipState :=
  match item with
  | .err e => .error (APMErrorType.WalkdirError.into_apm_error e)
  | .ok entry =>
    let name := entry.path
    if name = path then
      .ok st
    else
      let stripped_file_name :=
        if dont_strip_base_dir then name
        else (stripPrefixPath path name).getD name
      match entry.ftype with
      | .symlink =>
        .error (APMErrorType.SymlinkFoundError.into_apm_error
          ("Found symlink at path " ++ entry.fileName
            ++ "\nSymlinks cannot be compressed."))
      | .dir =>
        .ok { entries := st.entries ++ [⟨stripped_file_name, true, []⟩],
              file_names := st.file_names.map (· ++ [(name, stripped_file_name)]) }
      | .file =>
        match entry.openError with
        | some e =>
          .error (APMErrorType.FileOpenError.into_apm_error
            (e ++ "\nFile:" ++ name))
        | none =>
          .ok { entries := st.entries ++ [⟨stripped_file_name, false, entry.content⟩],
                file_names := st.file_names.map (· ++ [(name, stripped_file_name)]) }
      | .other => .ok st

/-- Function `compress_directory(path, track_file_names, dont_strip_base_dir)`
(`src/zip_manipulation.rs:10-75`), as a function of the `WalkDir` item
sequence.  `file_names` starts as `Some(vec![])` exactly when
`track_file_names`; the loop folds `processItem` over the walk;
`finish` on the in-memory writer is modelled as infallible.  Returns
the archive's entries (standing for the zip byte buffer) and the
optional manifest. -/
def compress_directory (path : String) (track_file_names : Bool)
    (dont_strip_base_dir : Bool) (walk : List WalkItem) :
    Except APMError (List ArchiveEntry × Option (List (String × String))) := do
  let init : ZipState :=
    { entries := [],
      file_names := if track_file_names then some [] else none }
  let st ← walk.foldlM (processItem path dont_strip_base_dir) init
  return (st.entries, st.file_names)

/-- One entry of an already-opened `ZipArchive`, as seen by
`extract_file_from_archive`: its stored name and the outcome of
`read_to_end` on it (`Except.error e` when reading the entry's bytes
fails with an error displaying as `e`). -/
structure ZipStoredEntry where
  name : String
  readResult : Except String (List Nat)
deriving Repr

/-- Display of `zip::result::ZipError::FileNotFound`, the error
`by_name` returns when no entry has the requested name. -/
def zipFileNotFoundMsg : String := "specified file not found in archive"

/-- Function `extract_file_from_archive(archive, name)`
(`src/zip_manipulation.rs:122-135`): `by_name` failure becomes
`ZIPArchiveFileFindError`, a failing `read_to_end` becomes
`ZIPFileReadError`, otherwise the entry's bytes are returned. -/
def extract_file_from_archive (archive : List ZipStoredEntry)
    (name : String) : Except APMError (List Nat) :=
  match archive.find? (fun e => e.name = name) with
  | none =>
    .error (APMErrorType.ZIPArchiveFileFindError.into_apm_error zipFileNotFoundMsg)
  | some f =>
    match f.readResult with
    | .error e => .error (APMErrorType.ZIPFileReadError.into_apm_error e)
    | .ok buf => .ok buf

/-- The `OpenOptions` access flags accumulated by the builder chain
(`OpenOptions::new().read(..).write(..)`). Both default to `false`. -/
structure OpenOptionsFlags where
  readAccess : Bool := false
  writeAccess : Bool := false
deriving DecidableEq, Repr

/-- Rust `OpenOptions::new()`. -/
def OpenOptionsFlags.new : OpenOptionsFlags := {}

/-- Rust `OpenOptions::read(b)`. -/
def OpenOptionsFlags.read (o : OpenOptionsFlags) (b : Bool) : OpenOptionsFlags :=
  { o with readAccess := b }

/-- Rust `OpenOptions::write(b)`. -/
def OpenOptionsFlags.write (o : OpenOptionsFlags) (b : Bool) : OpenOptionsFlags :=
  { o with writeAccess := b }

/-- The options `read_archive` opens its input with
(`src/zip_manipulation.rs:78-81`): `.read(true).write(false)`. -/
def read_archive_options : OpenOptionsFlags :=
  (OpenOptionsFlags.new.read true).write false

/-- A file on disk as `read_archive` can observe it: whether opening
it for read fails, and the outcome of `ZipArchive::new` on its
content. -/
structure DiskFile where
  openReadError : Option String := none
  zipParse : Except String (List ZipStoredEntry)
deriving Repr

/-- Function `read_archive(path)` (`src/zip_manipulation.rs:77-86`) over a
filesystem map from paths to files.  Opening uses
`read_archive_options`; an open failure becomes `FileOpenError`, a
zip-parse failure `ZIPArchiveOpenError`.  The resulting filesystem is
returned alongside: the file is opened with write access disabled, so
the filesystem is passed through unchanged. -/
def read_archive (fs : String → Option DiskFile) (path : String) :
    Except APMError (List ZipStoredEntry) × (String → Option DiskFile) :=
  match fs path with
  | none =>
    (.error (APMErrorType.FileOpenError.into_apm_error
      ("No such file or directory (os error 2)")), fs)
  | some f =>
    match f.openReadError with
    | some e => (.error (APMErrorType.FileOpenError.into_apm_error e), fs)
    | none =>
      match f.zipParse with
      | .error e => (.error (APMErrorType.ZIPArchiveOpenError.into_apm_error e), fs)
      | .ok ar => (.ok ar, fs)

/-- Modelled from the spec: the Checksum Manager's reserved marker
entry name (the repository's checksum module is not under `src/`; the
spec only says it is "a single reserved-name archive entry").  The
concrete name is a model constant; no result below depends on its
value, only on comparisons against it. -/
def checksumMarkerName : String := "checksum"

/-- Modelled from the spec: an archive as the Checksum Manager sees
it, a list of named entries with byte content, in write order. -/
structure ChkEntry where
  storedName : String
  content : List Nat
deriving DecidableEq, Repr

/-- Modelled from the spec: whether an archive contains a checksum
marker entry. -/
def hasChecksumMarker (ar : List ChkEntry) : Bool :=
  ar.any (fun e => e.storedName = checksumMarkerName)

/-- Modelled from the spec: the canonical byte stream the digest is
computed over — "enumerate all entries except the checksum marker,
sorted by stored name ascending; for each, feed `storedName` then
entry content into a streaming hash function". -/
def checksumStream (ar : List ChkEntry) : List Nat :=
  ((ar.filter (fun e => e.storedName ≠ checksumMarkerName)).mergeSort
      (fun a b => a.storedName ≤ b.storedName)).flatMap
    (fun e => (e.storedName.data.map Char.toNat) ++ e.content)

/-- Modelled from the spec: `computeChecksum(handle) -> digest`.  The
concrete hash function is not under `src/`; it is modelled as an
injective placeholder (the canonical stream itself serves as the
digest bytes), which every property below is insensitive to. -/
def computeChecksum (ar : List ChkEntry) : List Nat :=
  checksumStream ar

/-- Modelled from the spec: `ChecksumMarkerExistsError` and
`ChecksumMarkerNotFoundError`, the Checksum Manager's failure kinds. -/
inductive ChecksumError where
  | ChecksumMarkerExistsError
  | ChecksumMarkerNotFoundError
deriving DecidableEq, Repr

/-- Modelled from the spec: `addChecksum(handle, removeExisting)`.
"If a marker exists and `removeExisting` is false, fail ...
Otherwise compute the digest over the archive without any existing
marker, then add a new marker entry with that digest." -/
def addChecksum (ar : List ChkEntry) (removeExisting : Bool) :
    Except ChecksumError (List ChkEntry) :=
  if hasChecksumMarker ar ∧ ¬removeExisting then
    .error .ChecksumMarkerExistsError
  else
    let bare := ar.filter (fun e => e.storedName ≠ checksumMarkerName)
    .ok (bare ++ [⟨checksumMarkerName, computeChecksum bare⟩])

/-- Modelled from the spec: `removeChecksum(handle)` — "rebuild the
archive omitting the marker entry", failing when no marker exists. -/
def removeChecksum (ar : List ChkEntry) : Except ChecksumError (List ChkEntry) :=
  if hasChecksumMarker ar then
    .ok (ar.filter (fun e => e.storedName ≠ checksumMarkerName))
  else
    .error .ChecksumMarkerNotFoundError

/-- Modelled from the spec: `verifyChecksum(handle) -> bool` —
"recompute the digest over non-marker entries and compare to the
stored marker".  With no marker present there is nothing to compare
against, so the result is `false`. -/
def verifyChecksum (ar : List ChkEntry) : Bool :=
  match ar.find? (fun e => e.storedName = checksumMarkerName) with
  | none => false
  | some m => computeChecksum ar = m.content

/-- The stored name `compress_directory` computes for a walked path
(`src/zip_manipulation.rs:36-44`): the full path in full-paths mode,
else the path with the root prefix stripped, falling back to the full
path when stripping fails. -/
def storedNameOf (path : String) (dont_strip_base_dir : Bool)
    (name : String) : String :=
  if dont_strip_base_dir then name else (stripPrefixPath path name).getD name

/-- Whether a walked entry gets packed into the archive: it is not the
root, and it is a directory or a regular file that opens
successfully. -/
def packed (path : String) (e : WalkEntry) : Bool :=
  e.path ≠ path ∧ (e.ftype = .dir ∨ (e.ftype = .file ∧ e.openError = none))

/-- The archive entry a single walk item contributes, if any. -/
def itemArchiveEntry (path : String) (dont_strip_base_dir : Bool) :
    WalkItem → Option ArchiveEntry
  | .err _ => none
  | .ok e =>
    if packed path e then
      some ⟨storedNameOf path dont_strip_base_dir e.path,
            e.ftype = .dir,
            if e.ftype = .dir then [] else e.content⟩
    else none

/-- The manifest pair a single walk item contributes, if any. -/
def itemManifestPair (path : String) (dont_strip_base_dir : Bool) :
    WalkItem → Option (String × String)
  | .err _ => none
  | .ok e =>
    if packed path e then
      some (e.path, storedNameOf path dont_strip_base_dir e.path)
    else none

/-- Whether a walk item never aborts `compress_directory`: it is a
successfully yielded entry and is the root, a directory, a readable
regular file, or of another (skipped) file type — not a walk error,
not a non-root symlink, not an unopenable non-root regular file. -/
def itemClean (path : String) : WalkItem → Bool
  | .err _ => false
  | .ok e =>
    e.path = path ∨
      (e.ftype ≠ .symlink ∧ (e.ftype = .file → e.openError = none))

/-- Whether a walk item is a symlink entry other than the root (the
root is skipped before the symlink check). -/
def itemNonRootSymlink (path : String) : WalkItem → Bool
  | .err _ => false
  | .ok e => e.ftype = .symlink ∧ e.path ≠ path

/-- The path a walk item carries, if it is a successfully yielded
entry. -/
def itemPath : WalkItem → Option String
  | .ok e => some e.path
  | .err _ => none

/-- Whether a walk item's path lies at or strictly under the root
path, as `walkdir` guarantees for every yielded entry (a child path is
the parent path joined with `"/"` and the child name). -/
def itemUnderRoot (path : String) : WalkItem → Bool
  | .err _ => true
  | .ok e => e.path = path || List.isPrefixOf (path ++ "/").data e.path.data

/-- Whether a walk item is a successfully yielded regular-file
entry. -/
def isFileItem : WalkItem → Bool
  | .ok e => e.ftype = .file
  | .err _ => false

/-- Whether a walk item is a successfully yielded directory entry. -/
def isDirItem : WalkItem → Bool
  | .ok e => e.ftype = .dir
  | .err _ => false

/-- Whether a walk item is a successfully yielded non-root entry that
gets packed (a directory or a readable regular file). -/
def itemPackedNonRoot (path : String) : WalkItem → Bool
  | .err _ => false
  | .ok e => packed path e

/-- The character data of `root ++ "/" ++ rel`. -/
theorem data_append_slash (root rel : String) :
    (root ++ "/" ++ rel).data = (root.data ++ ['/']) ++ rel.data := by
  simp [String.data_append]

/-- Stripping the root prefix from a path of the form
`root ++ "/" ++ rel` yields exactly `rel`. -/
theorem stripPrefixPath_append (root rel : String) :
    stripPrefixPath root (root ++ "/" ++ rel) = some rel := by
  have hdata : (root ++ "/" ++ rel).data = (root.data ++ ['/']) ++ rel.data :=
    data_append_slash root rel
  have hne : root ++ "/" ++ rel ≠ root := by
    intro h
    have hd := congrArg String.data h
    rw [hdata] at hd
    have := congrArg List.length hd
    simp at this
  have hpre : List.isPrefixOf (root ++ "/").data (root ++ "/" ++ rel).data = true := by
    rw [ List.isPrefixOf_iff_prefix, hdata, String.data_append]
    show root.data ++ ['/'] <+: root.data ++ ['/'] ++ rel.data
    exact List.prefix_append _ _
  rw [stripPrefixPath, if_neg hne, if_pos hpre]
  congr 1
  apply String.ext
  show ((root ++ "/" ++ rel).data.drop (root.data.length + 1)) = rel.data
  rw [hdata]
  have hlen : (root.data ++ ['/']).length = root.data.length + 1 := by simp
  rw [← hlen, List.drop_left]

/-- A path that has `root ++ "/"` as a character prefix is of the form
`root ++ "/" ++ rel`. -/
theorem exists_rel_of_isPrefixOf (root name : String)
    (h : List.isPrefixOf (root ++ "/").data name.data = true) :
    ∃ rel, name = root ++ "/" ++ rel := by
  rw [ List.isPrefixOf_iff_prefix] at h
  obtain ⟨t, ht⟩ := h
  refine ⟨⟨t⟩, ?_⟩
  apply String.ext
  rw [data_append_slash]
  rw [← ht, String.data_append]

/-- Appending distinct suffixes to `root ++ "/"` yields distinct
paths. -/
theorem append_slash_right_inj (root r₁ r₂ : String)
    (h : root ++ "/" ++ r₁ = root ++ "/" ++ r₂) : r₁ = r₂ := by
  have h₁ := stripPrefixPath_append root r₁
  rw [h, stripPrefixPath_append root r₂] at h₁
  exact (Option.some_injective _ h₁).symm

/-- In stripping mode the stored name of a path under the root is the
path's suffix past `root ++ "/"`. -/
theorem storedNameOf_append (root rel : String) :
    storedNameOf root false (root ++ "/" ++ rel) = rel := by
  rw [storedNameOf, if_neg (by simp), stripPrefixPath_append]
  rfl

/-- The function `storedNameOf` is injective on paths lying under the root. -/
theorem storedNameOf_inj (root : String) (d : Bool) (p q : String)
    (hp : ∃ rel, p = root ++ "/" ++ rel) (hq : ∃ rel, q = root ++ "/" ++ rel)
    (h : storedNameOf root d p = storedNameOf root d q) : p = q := by
  obtain ⟨r₁, rfl⟩ := hp
  obtain ⟨r₂, rfl⟩ := hq
  cases d with
  | true => simpa [storedNameOf] using h
  | false =>
    rw [storedNameOf_append, storedNameOf_append] at h
    rw [h]

/-- A successful loop iteration appends exactly the item's archive
entry (if any) and, when tracking, its manifest pair. -/
theorem processItem_ok_shape (path : String) (d : Bool) (st st' : ZipState)
    (item : WalkItem) (h : processItem path d st item = .ok st') :
    st'.entries = st.entries ++ (itemArchiveEntry path d item).toList ∧
    st'.file_names = st.file_names.map (· ++ (itemManifestPair path d item).toList) := by
  cases item with
  | err msg => simp [processItem] at h
  | ok e =>
    by_cases hp : e.path = path
    · simp [processItem, hp] at h
      subst h
      constructor
      · simp [itemArchiveEntry, packed, hp]
      · cases st.file_names <;> simp [itemManifestPair, packed, hp]
    · cases hf : e.ftype with
      | symlink => simp [processItem, hp, hf] at h
      | dir =>
        simp [processItem, hp, hf] at h
        subst h
        constructor
        · simp [itemArchiveEntry, packed, hp, hf, storedNameOf]
        · cases st.file_names <;> simp [itemManifestPair, packed, hp, hf, storedNameOf]
      | file =>
        cases ho : e.openError with
        | some msg => simp [processItem, hp, hf, ho] at h
        | none =>
          simp [processItem, hp, hf, ho] at h
          subst h
          constructor
          · simp [itemArchiveEntry, packed, hp, hf, ho, storedNameOf]
          · cases st.file_names <;>
              simp [itemManifestPair, packed, hp, hf, ho, storedNameOf]
      | other =>
        simp [processItem, hp, hf] at h
        subst h
        constructor
        · simp [itemArchiveEntry, packed, hf]
        · cases st.file_names <;> simp [itemManifestPair, packed, hf]

/-- A clean item never aborts the loop. -/
theorem processItem_clean_ok (path : String) (d : Bool) (st : ZipState)
    (item : WalkItem) (h : itemClean path item = true) :
    ∃ st', processItem path d st item = .ok st' := by
  cases hres : processItem path d st item with
  | ok st' => exact ⟨st', rfl⟩
  | error err =>
    exfalso
    cases item with
    | err msg => simp [itemClean] at h
    | ok e =>
      by_cases hp : e.path = path
      · simp [processItem, hp] at hres
      · simp [itemClean, hp] at h
        cases hf : e.ftype with
        | symlink => rw [hf] at h; simp at h
        | dir => simp [processItem, hp, hf] at hres
        | file =>
          have ho : e.openError = none := h.2.resolve_left (not_not_intro hf)
          simp [processItem, hp, hf, ho] at hres
        | other => simp [processItem, hp, hf] at hres

/-- An entry of a skipped file type leaves the loop state unchanged. -/
theorem processItem_other (path : String) (d : Bool) (st : ZipState)
    (e : WalkEntry) (h : e.ftype = .other) :
    processItem path d st (.ok e) = .ok st := by
  by_cases hp : e.path = path <;> simp [processItem, hp, h]

/-- A non-root symlink entry aborts the loop with `SymlinkFoundError`,
whatever the accumulated state. -/
theorem processItem_symlink (path : String) (d : Bool) (st : ZipState)
    (e : WalkEntry) (hs : e.ftype = .symlink) (hnr : e.path ≠ path) :
    processItem path d st (.ok e) =
      .error ⟨.SymlinkFoundError,
        "Found symlink at path " ++ e.fileName
          ++ "\nSymlinks cannot be compressed."⟩ := by
  simp [processItem, hnr, hs, APMErrorType.into_apm_error]

/-- A non-root regular file whose open fails aborts the loop with
`FileOpenError`, the message naming the file's path. -/
theorem processItem_file_open (path : String) (d : Bool) (st : ZipState)
    (e : WalkEntry) (msg : String) (hf : e.ftype = .file)
    (ho : e.openError = some msg) (hnr : e.path ≠ path) :
    processItem path d st (.ok e) =
      .error ⟨.FileOpenError, msg ++ "\nFile:" ++ e.path⟩ := by
  simp [processItem, hnr, hf, ho, APMErrorType.into_apm_error]

/-- Binding an `Except.error` short-circuits. -/
theorem except_error_bind {ε α β : Type} (err : ε) (f : α → Except ε β) :
    (Except.error err >>= f) = Except.error err := rfl

/-- Binding an `Except.ok` applies the continuation. -/
theorem except_ok_bind {ε α β : Type} (a : α) (f : α → Except ε β) :
    (Except.ok a >>= f) = f a := rfl

/-- In the `Except` monad, `pure` is `Except.ok`. -/
theorem except_pure_eq {ε α : Type} (a : α) :
    (pure a : Except ε α) = Except.ok a := rfl

/-- A successful walk loop appends exactly the archive entries and
manifest pairs that the walked items contribute, in visit order. -/
theorem foldl_ok_shape (path : String) (d : Bool) :
    ∀ (walk : List WalkItem) (st st' : ZipState),
      walk.foldlM (processItem path d) st = .ok st' →
      st'.entries = st.entries ++ walk.filterMap (itemArchiveEntry path d) ∧
      st'.file_names =
        st.file_names.map (· ++ walk.filterMap (itemManifestPair path d)) := by
  intro walk
  induction walk with
  | nil =>
    intro st st' h
    simp only [List.foldlM, except_pure_eq, Except.ok.injEq] at h
    subst h
    constructor
    · simp
    · cases st.file_names <;> simp
  | cons a rest ih =>
    intro st st' h
    rw [List.foldlM_cons] at h
    cases ha : processItem path d st a with
    | error err => rw [ha, except_error_bind] at h; exact absurd h (by simp)
    | ok st₁ =>
      rw [ha, except_ok_bind] at h
      obtain ⟨he₁, hm₁⟩ := processItem_ok_shape path d st st₁ a ha
      obtain ⟨he₂, hm₂⟩ := ih st₁ st' h
      constructor
      · rw [he₂, he₁, List.filterMap_cons]
        cases itemArchiveEntry path d a <;> simp
      · rw [hm₂, hm₁, List.filterMap_cons]
        cases itemManifestPair path d a <;> cases st.file_names <;> simp

/-- Refinement of `compress_directory`: a successful run returns
exactly the archive entries contributed by the walked items in visit
order, and the manifest is present exactly when tracking was
requested, holding the contributed pairs in visit order. -/
theorem compress_directory_ok_shape (path : String) (t d : Bool)
    (walk : List WalkItem) (es : List ArchiveEntry)
    (mf : Option (List (String × String)))
    (h : compress_directory path t d walk = .ok (es, mf)) :
    es = walk.filterMap (itemArchiveEntry path d) ∧
    mf = (if t then some (walk.filterMap (itemManifestPair path d)) else none) := by
  rw [compress_directory] at h
  cases hfold : walk.foldlM (processItem path d)
      { entries := [], file_names := if t then some [] else none } with
  | error err =>
    rw [hfold, except_error_bind] at h
    exact absurd h (by simp)
  | ok st =>
    rw [hfold, except_ok_bind] at h
    simp only [except_pure_eq, Except.ok.injEq, Prod.mk.injEq] at h
    obtain ⟨he, hm⟩ := foldl_ok_shape path d walk _ st hfold
    obtain ⟨h₁, h₂⟩ := h
    constructor
    · rw [← h₁, he]; simp
    · rw [← h₂, hm]
      cases t <;> simp

/-- A walk consisting only of clean items never aborts the loop. -/
theorem foldl_clean_ok (path : String) (d : Bool) :
    ∀ (walk : List WalkItem) (st : ZipState),
      (∀ item ∈ walk, itemClean path item = true) →
      ∃ st', walk.foldlM (processItem path d) st = .ok st' := by
  intro walk
  induction walk with
  | nil => intro st _; exact ⟨st, rfl⟩
  | cons a rest ih =>
    intro st hclean
    obtain ⟨st₁, h₁⟩ :=
      processItem_clean_ok path d st a (hclean a (List.mem_cons_self a rest))
    obtain ⟨st', h'⟩ := ih st₁ (fun item hm => hclean item (List.mem_cons_of_mem a hm))
    refine ⟨st', ?_⟩
    rw [List.foldlM_cons, h₁, except_ok_bind, h']

/-- If every walked item is clean or a non-root symlink, and at least
one non-root symlink occurs, the loop aborts with
`SymlinkFoundError`, whatever the accumulated state. -/
theorem foldl_symlink_error (path : String) (d : Bool) :
    ∀ (walk : List WalkItem) (st : ZipState),
      (∀ item ∈ walk,
        itemClean path item = true ∨ itemNonRootSymlink path item = true) →
      (∃ item ∈ walk, itemNonRootSymlink path item = true) →
      ∃ msg, walk.foldlM (processItem path d) st =
        .error ⟨.SymlinkFoundError, msg⟩ := by
  intro walk
  induction walk with
  | nil => intro st _ hx; simp at hx
  | cons a rest ih =>
    intro st hall hex
    by_cases ha : itemNonRootSymlink path a = true
    · cases a with
      | err msg => simp [itemNonRootSymlink] at ha
      | ok e =>
        simp only [itemNonRootSymlink, decide_eq_true_eq] at ha
        refine ⟨"Found symlink at path " ++ e.fileName
          ++ "\nSymlinks cannot be compressed.", ?_⟩
        rw [List.foldlM_cons,
          processItem_symlink path d st e ha.1 ha.2, except_error_bind]
    · have hcl : itemClean path a = true :=
        (hall a (List.mem_cons_self a rest)).resolve_right ha
      obtain ⟨st₁, h₁⟩ := processItem_clean_ok path d st a hcl
      obtain ⟨item, hm, hsym⟩ := hex
      have hm' : item ∈ rest := by
        rcases List.mem_cons.mp hm with h | h
        · exact absurd (h ▸ hsym) ha
        · exact h
      obtain ⟨msg, hmsg⟩ :=
        ih st₁ (fun it hit => hall it (List.mem_cons_of_mem a hit)) ⟨item, hm', hsym⟩
      exact ⟨msg, by rw [List.foldlM_cons, h₁, except_ok_bind, hmsg]⟩

/-- A walk consisting only of clean items makes `compress_directory`
succeed. -/
theorem compress_clean_ok (path : String) (t d : Bool) (walk : List WalkItem)
    (h : ∀ item ∈ walk, itemClean path item = true) :
    ∃ es mf, compress_directory path t d walk = .ok (es, mf) := by
  obtain ⟨st', hst⟩ := foldl_clean_ok path d walk
    { entries := [], file_names := if t then some [] else none } h
  exact ⟨st'.entries, st'.file_names, by
    rw [compress_directory, hst, except_ok_bind, except_pure_eq]⟩

/-- C1: if the walk of the source tree yields at least one symlink
among its non-root entries — and nothing before it aborts for an
unrelated reason (every other walked item is clean) — then
`compress_directory` fails with `SymlinkFoundError`; the symlink is
neither skipped nor followed, and no archive bytes are returned (the
`Except.error` result carries no archive). -/
theorem compress_directory_symlink_aborts (path : String) (t d : Bool)
    (walk : List WalkItem)
    (hall : ∀ item ∈ walk,
      itemClean path item = true ∨ itemNonRootSymlink path item = true)
    (hsym : ∃ item ∈ walk, itemNonRootSymlink path item = true) :
    ∃ err, compress_directory path t d walk = .error err ∧
      err.errorType = .SymlinkFoundError := by
  obtain ⟨msg, h⟩ := foldl_symlink_error path d walk
    { entries := [], file_names := if t then some [] else none } hall hsym
  exact ⟨⟨.SymlinkFoundError, msg⟩,
    by rw [compress_directory, h, except_error_bind], rfl⟩

/-- Witness for C1 at a concrete two-item walk: a root directory and
a symlink child. -/
theorem compress_directory_symlink_aborts_w :
    ∃ err, compress_directory "r" true false
      [WalkItem.ok ⟨"r", "r", .dir, none, []⟩,
       WalkItem.ok ⟨"r/s", "s", .symlink, none, []⟩] = .error err ∧
      err.errorType = .SymlinkFoundError :=
  compress_directory_symlink_aborts "r" true false _ (by decide) (by decide)

/-- C7: if during packing a regular file (not the root) fails to open
for read — everything walked before it being clean — the whole
`compress_directory` operation aborts with `FileOpenError`, and the
error's detail message is the open error followed by the failing
file's path. -/
theorem compress_directory_file_open_aborts (path : String) (t d : Bool)
    (pre post : List WalkItem) (f : WalkEntry) (msg : String)
    (hpre : ∀ item ∈ pre, itemClean path item = true)
    (hf : f.ftype = .file) (ho : f.openError = some msg)
    (hnr : f.path ≠ path) :
    compress_directory path t d (pre ++ WalkItem.ok f :: post) =
      .error ⟨.FileOpenError, msg ++ "\nFile:" ++ f.path⟩ := by
  obtain ⟨st₁, h₁⟩ := foldl_clean_ok path d pre
    { entries := [], file_names := if t then some [] else none } hpre
  rw [compress_directory, List.foldlM_append, h₁, except_ok_bind,
    List.foldlM_cons, processItem_file_open path d st₁ f msg hf ho hnr,
    except_error_bind, except_error_bind]

/-- Witness for C7 at a concrete walk: a root directory and an
unreadable regular file. -/
theorem compress_directory_file_open_aborts_w :
    compress_directory "r" true false
      [WalkItem.ok ⟨"r", "r", .dir, none, []⟩,
       WalkItem.ok ⟨"r/a.txt", "a.txt", .file, some "Permission denied (os error 13)", []⟩] =
      .error ⟨.FileOpenError,
        "Permission denied (os error 13)" ++ "\nFile:" ++ "r/a.txt"⟩ :=
  compress_directory_file_open_aborts "r" true false
    [WalkItem.ok ⟨"r", "r", .dir, none, []⟩] []
    ⟨"r/a.txt", "a.txt", .file, some "Permission denied (os error 13)", []⟩
    "Permission denied (os error 13)" (by decide) rfl rfl (by decide)

/-- C9: a walked entry that is neither a symlink, a directory nor a
regular file is silently skipped: `compress_directory` on a walk
containing it returns exactly what it returns on the walk without it —
no archive entry, no manifest pair, no error. -/
theorem compress_directory_skips_other_types (path : String) (t d : Bool)
    (pre post : List WalkItem) (e : WalkEntry) (h : e.ftype = .other) :
    compress_directory path t d (pre ++ WalkItem.ok e :: post) =
      compress_directory path t d (pre ++ post) := by
  rw [compress_directory, compress_directory, List.foldlM_append,
    List.foldlM_append]
  cases hpre : pre.foldlM (processItem path d)
      { entries := [], file_names := if t then some [] else none } with
  | error err => rfl
  | ok st =>
    rw [except_ok_bind, except_ok_bind, List.foldlM_cons,
      processItem_other path d st e h, except_ok_bind]

/-- Witness for C9 at a concrete walk containing a socket-like entry. -/
theorem compress_directory_skips_other_types_w :
    compress_directory "r" true false
      [WalkItem.ok ⟨"r", "r", .dir, none, []⟩,
       WalkItem.ok ⟨"r/sock", "sock", .other, none, []⟩,
       WalkItem.ok ⟨"r/b", "b", .file, none, [7]⟩] =
      compress_directory "r" true false
        [WalkItem.ok ⟨"r", "r", .dir, none, []⟩,
         WalkItem.ok ⟨"r/b", "b", .file, none, [7]⟩] :=
  compress_directory_skips_other_types "r" true false
    [WalkItem.ok ⟨"r", "r", .dir, none, []⟩]
    [WalkItem.ok ⟨"r/b", "b", .file, none, [7]⟩]
    ⟨"r/sock", "sock", .other, none, []⟩ rfl

/-- A packed entry is not the root and is a directory or a readable
regular file. -/
theorem packed_spec (path : String) (e : WalkEntry) (h : packed path e = true) :
    e.path ≠ path ∧ (e.ftype = .dir ∨ (e.ftype = .file ∧ e.openError = none)) := by
  simpa [packed] using h

/-- A packed item is clean. -/
theorem packed_clean (path : String) (e : WalkEntry)
    (h : packed path e = true) : itemClean path (.ok e) = true := by
  obtain ⟨-, hty⟩ := packed_spec path e h
  rcases hty with hd | ⟨hf, ho⟩
  · simp [itemClean, hd]
  · simp [itemClean, hf, ho]

/-- Inversion for `itemArchiveEntry`: a contributed archive entry
comes from a packed walked entry and carries its stored name. -/
theorem itemArchiveEntry_some (path : String) (d : Bool) (item : WalkItem)
    (a : ArchiveEntry) (h : itemArchiveEntry path d item = some a) :
    ∃ e, item = .ok e ∧ packed path e = true ∧
      a.storedName = storedNameOf path d e.path := by
  cases item with
  | err msg => simp [itemArchiveEntry] at h
  | ok e =>
    by_cases hp : packed path e
    · refine ⟨e, rfl, hp, ?_⟩
      simp only [itemArchiveEntry, hp, if_pos] at h
      cases h
      rfl
    · simp [itemArchiveEntry, hp] at h

/-- Inversion for `itemManifestPair`: a contributed manifest pair is
the packed entry's original path and its stored name. -/
theorem itemManifestPair_some (path : String) (d : Bool) (item : WalkItem)
    (op sn : String) (h : itemManifestPair path d item = some (op, sn)) :
    ∃ e, item = .ok e ∧ packed path e = true ∧ e.path = op ∧
      sn = storedNameOf path d op := by
  cases item with
  | err msg => simp [itemManifestPair] at h
  | ok e =>
    by_cases hp : packed path e
    · simp only [itemManifestPair, hp, if_pos, Option.some.injEq, Prod.mk.injEq] at h
      exact ⟨e, rfl, hp, h.1, by rw [← h.1, ← h.2]⟩
    · simp [itemManifestPair, hp] at h

/-- C2: every manifest pair produced by a successful
`compress_directory` run pairs an original path with its stored name:
with `dont_strip_base_dir = false` the stored name is the original
path with the `rootPath ++ "/"` prefix stripped, and with
`dont_strip_base_dir = true` it is the full original path. -/
theorem compress_directory_storedName_spec (path : String) (d : Bool)
    (walk : List WalkItem) (es : List ArchiveEntry)
    (mf : List (String × String)) (op sn rel : String)
    (h : compress_directory path true d walk = .ok (es, some mf))
    (hmem : (op, sn) ∈ mf)
    (hrel : op = path ++ "/" ++ rel) :
    (d = false → sn = rel) ∧ (d = true → sn = op) := by
  obtain ⟨-, hm⟩ := compress_directory_ok_shape path true d walk es (some mf) h
  rw [if_pos rfl, Option.some.injEq] at hm
  subst hm
  obtain ⟨item, -, hpair⟩ := List.mem_filterMap.mp hmem
  obtain ⟨e, -, -, -, hsn⟩ := itemManifestPair_some path d item op sn hpair
  constructor
  · intro hd
    rw [hsn, hd, hrel, storedNameOf_append]
  · intro hd
    rw [hsn, hd, storedNameOf]
    simp

/-- Witness for C2: packing a root `"r"` with one subdirectory
`"r/d"` in stripping mode stores it under `"d"`. -/
theorem compress_directory_storedName_spec_w :
    (false = false → "d" = "d") ∧ (false = true → "d" = "r/d") :=
  compress_directory_storedName_spec "r" false
    [WalkItem.ok ⟨"r", "r", .dir, none, []⟩,
     WalkItem.ok ⟨"r/d", "d", .dir, none, []⟩,
     WalkItem.ok ⟨"r/f", "f", .file, none, [1]⟩]
    [⟨"d", true, []⟩, ⟨"f", false, [1]⟩]
    [("r/d", "d"), ("r/f", "f")] "r/d" "d" "d"
    rfl (by simp) rfl

/-- Per item, the contributed manifest pair's stored-name component is
exactly the contributed archive entry's stored name (both exist for
precisely the packed entries). -/
theorem itemManifestPair_snd_eq (path : String) (d : Bool) (item : WalkItem) :
    (itemManifestPair path d item).map Prod.snd =
      (itemArchiveEntry path d item).map ArchiveEntry.storedName := by
  cases item with
  | err msg => rfl
  | ok e =>
    by_cases hp : packed path e
    · simp [itemManifestPair, itemArchiveEntry, hp]
    · simp [itemManifestPair, itemArchiveEntry, hp]

/-- C6: `compress_directory` returns a manifest exactly when
`track_file_names` is true — `none` otherwise, never an empty list
standing in for "not computed" — and the manifest holds one
`(originalPath, storedName)` pair per packed entry, in visit order:
its pairs are the walked items' contributions in walk order, and
their stored names are exactly the archive's stored names in emission
order. -/
theorem compress_directory_manifest_spec (path : String) (t d : Bool)
    (walk : List WalkItem) (es : List ArchiveEntry)
    (mf : Option (List (String × String)))
    (h : compress_directory path t d walk = .ok (es, mf)) :
    (t = false → mf = none) ∧
    (t = true →
      mf = some (walk.filterMap (itemManifestPair path d)) ∧
      (walk.filterMap (itemManifestPair path d)).map Prod.snd =
        es.map ArchiveEntry.storedName) := by
  obtain ⟨he, hm⟩ := compress_directory_ok_shape path t d walk es mf h
  constructor
  · intro ht
    rw [hm, ht, if_neg (by simp)]
  · intro ht
    refine ⟨by rw [hm, ht, if_pos rfl], ?_⟩
    rw [he, List.map_filterMap, List.map_filterMap]
    exact List.filterMap_congr (fun item _ => itemManifestPair_snd_eq path d item)

/-- Witness for C6 at a concrete tracked run over a root, one
subdirectory and one file. -/
theorem compress_directory_manifest_spec_w :
    (true = false → some [("w/d", "d"), ("w/f", "f")] = none) ∧
    (true = true →
      some [("w/d", "d"), ("w/f", "f")] =
        some (List.filterMap (itemManifestPair "w" false)
          [WalkItem.ok ⟨"w", "w", .dir, none, []⟩,
           WalkItem.ok ⟨"w/d", "d", .dir, none, []⟩,
           WalkItem.ok ⟨"w/f", "f", .file, none, [2]⟩]) ∧
      (List.filterMap (itemManifestPair "w" false)
          [WalkItem.ok ⟨"w", "w", .dir, none, []⟩,
           WalkItem.ok ⟨"w/d", "d", .dir, none, []⟩,
           WalkItem.ok ⟨"w/f", "f", .file, none, [2]⟩]).map Prod.snd =
        List.map ArchiveEntry.storedName [⟨"d", true, []⟩, ⟨"f", false, [2]⟩]) :=
  compress_directory_manifest_spec "w" true false
    [WalkItem.ok ⟨"w", "w", .dir, none, []⟩,
     WalkItem.ok ⟨"w/d", "d", .dir, none, []⟩,
     WalkItem.ok ⟨"w/f", "f", .file, none, [2]⟩]
    [⟨"d", true, []⟩, ⟨"f", false, [2]⟩]
    (some [("w/d", "d"), ("w/f", "f")]) rfl

/-- A packed item's path lies strictly under the root. -/
theorem packed_under_root_rel (path : String) (e : WalkEntry)
    (hur : itemUnderRoot path (.ok e) = true) (hp : packed path e = true) :
    ∃ rel, e.path = path ++ "/" ++ rel := by
  have hne := (packed_spec path e hp).1
  simp only [itemUnderRoot, Bool.or_eq_true, decide_eq_true_eq] at hur
  rcases hur with hroot | hpre
  · exact absurd hroot hne
  · exact exists_rel_of_isPrefixOf path e.path hpre

/-- Pairwise-distinct walked paths under one root contribute
pairwise-distinct stored names. -/
theorem filterMap_storedNames_nodup (path : String) (d : Bool) :
    ∀ (walk : List WalkItem),
      (∀ item ∈ walk, itemUnderRoot path item = true) →
      (walk.filterMap itemPath).Nodup →
      (walk.filterMap
        (fun it => (itemArchiveEntry path d it).map ArchiveEntry.storedName)).Nodup := by
  intro walk
  induction walk with
  | nil => intro _ _; simp
  | cons a rest ih =>
    intro hur hnd
    have hur' : ∀ item ∈ rest, itemUnderRoot path item = true :=
      fun it hit => hur it (List.mem_cons_of_mem a hit)
    have hnd' : (rest.filterMap itemPath).Nodup := by
      rw [List.filterMap_cons] at hnd
      cases hpa : itemPath a with
      | none => rw [hpa] at hnd; exact hnd
      | some p => rw [hpa] at hnd; exact hnd.of_cons
    rw [List.filterMap_cons]
    cases hga : itemArchiveEntry path d a with
    | none =>
      exact ih hur' hnd'
    | some b =>
      show (b.storedName :: _).Nodup
      rw [List.nodup_cons]
      refine ⟨?_, ih hur' hnd'⟩
      intro hmem
      obtain ⟨it', hit', hg'⟩ := List.mem_filterMap.mp hmem
      obtain ⟨b', hb', hsn'⟩ := Option.map_eq_some'.mp hg'
      obtain ⟨e, rfl, hp, hsn⟩ := itemArchiveEntry_some path d a b hga
      obtain ⟨e', rfl, hp', hsn''⟩ := itemArchiveEntry_some path d it' b' hb'
      have heq : e.path = e'.path := by
        apply storedNameOf_inj path d e.path e'.path
        · exact packed_under_root_rel path e
            (hur _ (List.mem_cons_self _ rest)) hp
        · exact packed_under_root_rel path e' (hur' _ hit') hp'
        · rw [← hsn, ← hsn'', hsn']
      have hpmem : e.path ∈ rest.filterMap itemPath :=
        List.mem_filterMap.mpr ⟨.ok e', hit', by rw [itemPath, heq]⟩
      rw [List.filterMap_cons] at hnd
      have hpa : itemPath (WalkItem.ok e) = some e.path := rfl
      rw [hpa] at hnd
      exact (List.nodup_cons.mp hnd).1 hpmem

/-- C3: in every successful `compress_directory` run over a walk whose
yielded entries lie at or under the root with pairwise-distinct paths
(as a filesystem walk guarantees), no two emitted archive entries have
the same stored name. -/
theorem compress_directory_storedNames_nodup (path : String) (t d : Bool)
    (walk : List WalkItem) (es : List ArchiveEntry)
    (mf : Option (List (String × String)))
    (hur : ∀ item ∈ walk, itemUnderRoot path item = true)
    (hnd : (walk.filterMap itemPath).Nodup)
    (h : compress_directory path t d walk = .ok (es, mf)) :
    (es.map ArchiveEntry.storedName).Nodup := by
  obtain ⟨he, -⟩ := compress_directory_ok_shape path t d walk es mf h
  rw [he, List.map_filterMap]
  exact filterMap_storedNames_nodup path d walk hur hnd

/-- Witness for C3 at a concrete walk of a root, a subdirectory and
two files. -/
theorem compress_directory_storedNames_nodup_w :
    (List.map ArchiveEntry.storedName
      [⟨"d", true, []⟩, ⟨"d/x", false, [1]⟩, ⟨"y", false, [2]⟩]).Nodup :=
  compress_directory_storedNames_nodup "r" true false
    [WalkItem.ok ⟨"r", "r", .dir, none, []⟩,
     WalkItem.ok ⟨"r/d", "d", .dir, none, []⟩,
     WalkItem.ok ⟨"r/d/x", "x", .file, none, [1]⟩,
     WalkItem.ok ⟨"r/y", "y", .file, none, [2]⟩]
    [⟨"d", true, []⟩, ⟨"d/x", false, [1]⟩, ⟨"y", false, [2]⟩]
    (some [("r/d", "d"), ("r/d/x", "d/x"), ("r/y", "y")])
    (by decide) (by decide) rfl

/-- Over a walk segment consisting only of packed non-root entries,
the number of contributed archive entries is the number of regular
files plus the number of directories. -/
theorem packed_count (path : String) (d : Bool) :
    ∀ (rest : List WalkItem),
      (∀ item ∈ rest, itemPackedNonRoot path item = true) →
      (rest.filterMap (itemArchiveEntry path d)).length =
        (rest.filter isFileItem).length + (rest.filter isDirItem).length := by
  intro rest
  induction rest with
  | nil => intro _; simp
  | cons a tail ih =>
    intro hall
    have ha := hall a (List.mem_cons_self a tail)
    have htail := fun it hit => hall it (List.mem_cons_of_mem a hit)
    cases a with
    | err msg => simp [itemPackedNonRoot] at ha
    | ok e =>
      have hp : packed path e = true := by simpa [itemPackedNonRoot] using ha
      rw [List.filterMap_cons]
      cases hb : itemArchiveEntry path d (.ok e) with
      | none => rw [itemArchiveEntry, if_pos hp] at hb; exact absurd hb (by simp)
      | some b =>
        obtain ⟨-, hty⟩ := packed_spec path e hp
        rcases hty with hdir | ⟨hfile, -⟩
        · have h₁ : isFileItem (WalkItem.ok e) = false := by
            simp [isFileItem, hdir]
          have h₂ : isDirItem (WalkItem.ok e) = true := by
            simp [isDirItem, hdir]
          rw [List.filter_cons, h₁, List.filter_cons, h₂]
          simp [ih htail]
          omega
        · have h₁ : isFileItem (WalkItem.ok e) = true := by
            simp [isFileItem, hfile]
          have h₂ : isDirItem (WalkItem.ok e) = false := by
            simp [isDirItem, hfile]
          rw [List.filter_cons, h₁, List.filter_cons, h₂]
          simp [ih htail]
          omega

/-- The root entry (whose displayed path equals the argument path) is
skipped, leaving the run unchanged. -/
theorem compress_cons_root (path : String) (t d : Bool) (root : WalkEntry)
    (rest : List WalkItem) (hroot : root.path = path) :
    compress_directory path t d (WalkItem.ok root :: rest) =
      compress_directory path t d rest := by
  have hpr : ∀ st : ZipState, processItem path d st (.ok root) = .ok st := by
    intro st
    simp [processItem, hroot]
  rw [compress_directory, compress_directory, List.foldlM_cons, hpr, except_ok_bind]

/-- C5: packing a symlink-free walk of a root directory followed by N
regular-file and M directory entries (all readable, all non-root)
succeeds with an archive of exactly N+M entries, and the root itself
contributes no archive entry (the run equals the run on the walk
without the root item). -/
theorem compress_directory_entry_count (path : String) (t d : Bool)
    (root : WalkEntry) (rest : List WalkItem)
    (hroot : root.path = path)
    (hrest : ∀ item ∈ rest, itemPackedNonRoot path item = true) :
    ∃ es mf,
      compress_directory path t d (WalkItem.ok root :: rest) = .ok (es, mf) ∧
      es.length = (rest.filter isFileItem).length +
        (rest.filter isDirItem).length ∧
      compress_directory path t d (WalkItem.ok root :: rest) =
        compress_directory path t d rest := by
  have hclean : ∀ item ∈ WalkItem.ok root :: rest, itemClean path item = true := by
    intro item hm
    rcases List.mem_cons.mp hm with rfl | hm'
    · simp [itemClean, hroot]
    · have hit := hrest item hm'
      cases item with
      | err msg => simp [itemPackedNonRoot] at hit
      | ok e => exact packed_clean path e (by simpa [itemPackedNonRoot] using hit)
  obtain ⟨es, mf, hok⟩ := compress_clean_ok path t d (WalkItem.ok root :: rest) hclean
  refine ⟨es, mf, hok, ?_, compress_cons_root path t d root rest hroot⟩
  obtain ⟨he, -⟩ := compress_directory_ok_shape path t d _ es mf hok
  rw [he, List.filterMap_cons]
  have hra : itemArchiveEntry path d (.ok root) = none := by
    simp [itemArchiveEntry, packed, hroot]
  rw [hra]
  exact packed_count path d rest hrest

/-- Witness for C5 at a concrete walk: root, one directory, two
files — three archive entries. -/
theorem compress_directory_entry_count_w :
    ∃ es mf,
      compress_directory "p" true false
        [WalkItem.ok ⟨"p", "p", .dir, none, []⟩,
         WalkItem.ok ⟨"p/d", "d", .dir, none, []⟩,
         WalkItem.ok ⟨"p/f1", "f1", .file, none, [1]⟩,
         WalkItem.ok ⟨"p/f2", "f2", .file, none, [2]⟩] = .ok (es, mf) ∧
      es.length =
        (List.filter isFileItem
          [WalkItem.ok ⟨"p/d", "d", .dir, none, []⟩,
           WalkItem.ok ⟨"p/f1", "f1", .file, none, [1]⟩,
           WalkItem.ok ⟨"p/f2", "f2", .file, none, [2]⟩]).length +
        (List.filter isDirItem
          [WalkItem.ok ⟨"p/d", "d", .dir, none, []⟩,
           WalkItem.ok ⟨"p/f1", "f1", .file, none, [1]⟩,
           WalkItem.ok ⟨"p/f2", "f2", .file, none, [2]⟩]).length ∧
      compress_directory "p" true false
        [WalkItem.ok ⟨"p", "p", .dir, none, []⟩,
         WalkItem.ok ⟨"p/d", "d", .dir, none, []⟩,
         WalkItem.ok ⟨"p/f1", "f1", .file, none, [1]⟩,
         WalkItem.ok ⟨"p/f2", "f2", .file, none, [2]⟩] =
        compress_directory "p" true false
          [WalkItem.ok ⟨"p/d", "d", .dir, none, []⟩,
           WalkItem.ok ⟨"p/f1", "f1", .file, none, [1]⟩,
           WalkItem.ok ⟨"p/f2", "f2", .file, none, [2]⟩] :=
  compress_directory_entry_count "p" true false
    ⟨"p", "p", .dir, none, []⟩
    [WalkItem.ok ⟨"p/d", "d", .dir, none, []⟩,
     WalkItem.ok ⟨"p/f1", "f1", .file, none, [1]⟩,
     WalkItem.ok ⟨"p/f2", "f2", .file, none, [2]⟩]
    rfl (by decide)

/-- Archives with the same non-marker entries have the same digest. -/
theorem computeChecksum_congr (ar₁ ar₂ : List ChkEntry)
    (h : ar₁.filter (fun e => e.storedName ≠ checksumMarkerName) =
         ar₂.filter (fun e => e.storedName ≠ checksumMarkerName)) :
    computeChecksum ar₁ = computeChecksum ar₂ := by
  rw [computeChecksum, computeChecksum, checksumStream, checksumStream, h]

/-- C4: on any archive containing no checksum marker entry,
`addChecksum` succeeds (for either value of `removeExisting`) and
`verifyChecksum` on its result returns `true`. -/
theorem addChecksum_then_verifyChecksum (ar : List ChkEntry)
    (removeExisting : Bool) (hno : hasChecksumMarker ar = false) :
    ∃ ar', addChecksum ar removeExisting = .ok ar' ∧
      verifyChecksum ar' = true := by
  have hnotin : ∀ e ∈ ar, ¬(e.storedName = checksumMarkerName) := by
    intro e he
    have := List.any_eq_false.mp hno e he
    simpa using this
  have hbare : ar.filter (fun e => e.storedName ≠ checksumMarkerName) = ar :=
    List.filter_eq_self.mpr (fun e he => by simpa using hnotin e he)
  have hcond : ¬((hasChecksumMarker ar = true) ∧ ¬(removeExisting = true)) := by
    rw [hno]
    simp
  refine ⟨ar ++ [⟨checksumMarkerName, computeChecksum ar⟩], ?_, ?_⟩
  · rw [addChecksum, if_neg hcond, hbare]
  · have hfind : (ar ++ [(⟨checksumMarkerName, computeChecksum ar⟩ : ChkEntry)]).find?
        (fun e => e.storedName = checksumMarkerName) =
        some ⟨checksumMarkerName, computeChecksum ar⟩ := by
      rw [List.find?_append]
      have h₁ : ar.find? (fun e => e.storedName = checksumMarkerName) = none :=
        List.find?_eq_none.mpr (fun e he => by simpa using hnotin e he)
      rw [h₁]
      simp
    have hfilter : (ar ++ [(⟨checksumMarkerName, computeChecksum ar⟩ : ChkEntry)]).filter
        (fun e => e.storedName ≠ checksumMarkerName) = ar := by
      rw [List.filter_append, hbare]
      simp
    have hdig : computeChecksum
        (ar ++ [(⟨checksumMarkerName, computeChecksum ar⟩ : ChkEntry)]) =
        computeChecksum ar :=
      computeChecksum_congr _ _ (by rw [hfilter, hbare])
    rw [verifyChecksum, hfind, hdig]
    simp

/-- Witness for C4 at a concrete two-entry archive. -/
theorem addChecksum_then_verifyChecksum_w :
    ∃ ar', addChecksum [⟨"b.txt", [3]⟩, ⟨"a.txt", [1, 2]⟩] false = .ok ar' ∧
      verifyChecksum ar' = true :=
  addChecksum_then_verifyChecksum [⟨"b.txt", [3]⟩, ⟨"a.txt", [1, 2]⟩] false
    (by decide)

/-- C8: `extract_file_from_archive` returns the entry's bytes when an
entry with the requested stored name exists and is readable, fails
with the entry-not-found kind (`ZIPArchiveFileFindError`) when no such
entry exists, and fails with the entry-read kind (`ZIPFileReadError`)
when reading the entry's bytes fails; the two failure kinds are
distinguishable. -/
theorem extract_file_from_archive_spec (archive : List ZipStoredEntry)
    (name : String) :
    (archive.find? (fun e => e.name = name) = none →
      ∃ err, extract_file_from_archive archive name = .error err ∧
        err.errorType = .ZIPArchiveFileFindError) ∧
    (∀ f buf, archive.find? (fun e => e.name = name) = some f →
      f.readResult = .ok buf →
      extract_file_from_archive archive name = .ok buf) ∧
    (∀ f msg, archive.find? (fun e => e.name = name) = some f →
      f.readResult = .error msg →
      ∃ err, extract_file_from_archive archive name = .error err ∧
        err.errorType = .ZIPFileReadError) ∧
    APMErrorType.ZIPArchiveFileFindError ≠ APMErrorType.ZIPFileReadError := by
  refine ⟨?_, ?_, ?_, by simp⟩
  · intro hnone
    refine ⟨⟨.ZIPArchiveFileFindError, zipFileNotFoundMsg⟩, ?_, rfl⟩
    rw [extract_file_from_archive, hnone]
    rfl
  · intro f buf hf hread
    rw [extract_file_from_archive, hf]
    show (match f.readResult with
      | .error e => Except.error (APMErrorType.ZIPFileReadError.into_apm_error e)
      | .ok buf => Except.ok buf) = Except.ok buf
    rw [hread]
  · intro f msg hf hread
    refine ⟨⟨.ZIPFileReadError, msg⟩, ?_, rfl⟩
    rw [extract_file_from_archive, hf]
    show (match f.readResult with
      | .error e => Except.error (APMErrorType.ZIPFileReadError.into_apm_error e)
      | .ok buf => Except.ok buf) =
      Except.error ⟨.ZIPFileReadError, msg⟩
    rw [hread]
    rfl

/-- Witness for C8: reading an existing readable entry returns its
bytes. -/
theorem extract_file_from_archive_spec_w :
    extract_file_from_archive [⟨"a.txt", Except.ok [1, 2]⟩] "a.txt" =
      .ok [1, 2] :=
  (extract_file_from_archive_spec [⟨"a.txt", Except.ok [1, 2]⟩] "a.txt").2.1
    ⟨"a.txt", Except.ok [1, 2]⟩ [1, 2] rfl rfl

/-- C10: `read_archive` opens its input with read access only — write
access explicitly disabled — so opening and reading an archive leaves
the filesystem unchanged. -/
theorem read_archive_readonly :
    read_archive_options.readAccess = true ∧
    read_archive_options.writeAccess = false ∧
    ∀ (fs : String → Option DiskFile) (path : String),
      (read_archive fs path).2 = fs := by
  refine ⟨rfl, rfl, ?_⟩
  intro fs path
  rw [read_archive]
  cases fs path with
  | none => rfl
  | some f =>
    obtain ⟨oe, zp⟩ := f
    cases oe with
    | some e => rfl
    | none =>
      cases zp with
      | error e => rfl
      | ok ar => rfl
